import Mathlib

/-!
Formal model of the MOSDAC radar-scraper timestamp heuristic
(`mosdac_only.py`, with the shared scan loop also present in
`radar_scraper.py`), together with proofs of the specification's claims
about it.  Machine integers are modelled as `Int` (Python integers are
unbounded; Python `//` and `%` agree with Lean's `Int` division and
modulus for positive divisors), strings as Lean `String`s over their
character lists, and fallible operations (Python exceptions) as `Option`.
Network fetches are abstracted into an oracle parameter.
-/

namespace RadarScraper

/-- Python string slicing `s[a:b]` for `0 ≤ a ≤ b`: drops the first `a`
characters and keeps at most `b - a` more, clamping at the end of the
string exactly as Python slices do. -/
def pySlice (s : String) (a b : Nat) : String :=
  String.mk ((s.data.drop a).take (b - a))

/-- Model of Python `int(s)` restricted to unsigned decimal digit strings:
the decoded value when `s` is nonempty and all of its characters are ASCII
digits, and `none` (a Python `ValueError`) otherwise.  Python's `int` also
accepts surrounding whitespace, `+`/`-` signs, underscores and non-ASCII
decimal digits; the theorems below rely only on the conversion of ASCII
digit strings, where this model is exact — a text this model rejects but
`int()` would accept simply falls outside their `some`-hypotheses. -/
def pyInt (s : String) : Option Int :=
  if s.data ≠ [] ∧ s.data.all (·.isDigit) then
    some (s.data.foldl (fun acc c => 10 * acc + ((c.toNat : Int) - 48)) 0)
  else none

/-- The inline timestamp parsing used throughout the scraper:
`h, m, s = int(ts[:2]), int(ts[2:4]), int(ts[4:6])`
(mosdac_only.py lines 84, 153-155, 296-298, 423-425, 480-482). -/
def parseHMS (ts : String) : Option (Int × Int × Int) :=
  match pyInt (pySlice ts 0 2), pyInt (pySlice ts 2 4), pyInt (pySlice ts 4 6) with
  | some h, some m, some s => some (h, m, s)
  | _, _, _ => none

/-- `total_sec = h * 3600 + m * 60 + s` applied after the inline parse
(mosdac_only.py lines 85, 156, 276, 299, 426, 483). -/
def toSecondsOfString (ts : String) : Option Int :=
  (parseHMS ts).map (fun x => x.1 * 3600 + x.2.1 * 60 + x.2.2)

/-- Python `f"{n:02d}"`: two-character zero-padded decimal rendering.  For
`0 ≤ n < 100` — the only values the scraper ever formats — this is the two
digit characters; other values fall back to the plain decimal string,
which is also what Python produces there. -/
def pad2 (n : Int) : String :=
  if 0 ≤ n ∧ n < 100 then
    String.mk [Nat.digitChar (n.toNat / 10), Nat.digitChar (n.toNat % 10)]
  else toString n

/-- `f"{h:02d}{m:02d}{s:02d}"` after `h = sec // 3600`,
`m = (sec % 3600) // 60`, `s = sec % 60`
(mosdac_only.py lines 228-231, 264-267, 307-310). -/
def formatTimestamp (sec : Int) : String :=
  pad2 (sec / 3600) ++ pad2 (sec % 3600 / 60) ++ pad2 (sec % 60)

/-- A valid 6-digit timestamp in the sense of the specification: exactly
six ASCII digits decoding to hour 0-23, minute 0-59, second 0-59. -/
def isValidTimestamp (ts : String) : Bool :=
  decide (ts.data.length = 6) && ts.data.all (·.isDigit) &&
    (match parseHMS ts with
     | some (h, m, s) => decide (h ≤ 23) && decide (m ≤ 59) && decide (s ≤ 59)
     | none => false)

/-- Modelled from the spec: `parse(text) -> TimeOfDay` fails with
`FormatError` (here `none`) if `text` is not exactly 6 ASCII digits or
decodes to an hour/minute/second outside `0-23`/`0-59`/`0-59`; otherwise
the seconds-since-midnight value.  There is no such validating parse in
the source, which only has the inline `parseHMS` slicing. -/
def parseSpec (ts : String) : Option Int :=
  if isValidTimestamp ts then toSecondsOfString ts else none

/-- The adaptive-interval record returned by
`calculate_intervals_from_known`: a Python dict whose `short_base` and
`long_base` keys are absent (`none`) in the default branches.  Callers
read them with `.get('short_base', 158)` / `.get('long_base', 761)`. -/
structure PatternInfo where
  intervals : List Int
  short_base : Option Int
  long_base : Option Int
  short_variants : List Int
  long_variants : List Int
deriving DecidableEq, Repr

/-- Python `<` on strings: lexicographic comparison of code points. -/
def lexLt : List Char → List Char → Bool
  | [], [] => false
  | [], _ :: _ => true
  | _ :: _, [] => false
  | x :: xs, y :: ys =>
    if x.val < y.val then true
    else if y.val < x.val then false
    else lexLt xs ys

/-- Python `<=` on strings. -/
def pyStrLe (a b : String) : Bool := !lexLt b.data a.data

/-- Python `sorted` on a list of strings (ascending code-point order). -/
def pySortedStr (l : List String) : List String :=
  l.insertionSort (fun a b => pyStrLe a b = true)

/-- Python `sorted` on a list of integers. -/
def pySortedInt (l : List Int) : List Int :=
  l.insertionSort (fun a b : Int => a ≤ b)

/-- Consecutive differences `timestamps_sec[i] - timestamps_sec[i-1]`
(mosdac_only.py lines 89-93, before the positivity filter). -/
def deltas : List Int → List Int
  | [] => []
  | [_] => []
  | x :: y :: rest => (y - x) :: deltas (y :: rest)

/-- Python `max(set(l), key=l.count)` over a nonempty `l` (with `dflt` for
the empty case): an element of `l` of maximal multiplicity.  Python's
tie-break among equally frequent values depends on set iteration order and
is effectively unspecified; modelled as the first element of `l` whose
count no later element strictly exceeds. -/
def argmaxCount (l : List Int) : List Int → Int → Int
  | [], best => best
  | y :: ys, best =>
      argmaxCount l ys (if l.count best < l.count y then y else best)

/-- Wrapper choosing `dflt` on the empty list, as in
`max(set(short_intervals), key=short_intervals.count) if short_intervals
else 158` (mosdac_only.py lines 116-119). -/
def mostCommon (l : List Int) (dflt : Int) : Int :=
  match l with
  | [] => dflt
  | x :: xs => argmaxCount (x :: xs) xs x

/-- `get_variants` (mosdac_only.py lines 108-113): the bucket members
within ±20 s of the base, deduplicated and sorted; `[base_interval]` when
there are none. -/
def get_variants (interval_list : List Int) (base_interval : Int) : List Int :=
  let variants := interval_list.filter (fun i => |i - base_interval| ≤ 20)
  if variants = [] then [base_interval]
  else pySortedInt variants.dedup

/-- The record produced by the two default branches of
`calculate_intervals_from_known` (mosdac_only.py lines 73-79 and 95-101):
no `short_base`/`long_base` keys. -/
def defaultPatternInfo : PatternInfo :=
  ⟨[158, 761], none, none, [158, 157, 159], [761, 744, 778]⟩

/-- `calculate_intervals_from_known` (mosdac_only.py lines 71-127).
`none` models a Python `ValueError` escaping from `int()` on a malformed
history entry (only reachable when the history has at least 2 entries). -/
def calculate_intervals_from_known (known_timestamps : List String) :
    Option PatternInfo :=
  if known_timestamps.length < 2 then
    some defaultPatternInfo
  else
    match (pySortedStr known_timestamps).mapM toSecondsOfString with
    | none => none
    | some timestamps_sec =>
      let intervals := (deltas timestamps_sec).filter (fun i => 0 < i)
      if intervals = [] then
        some defaultPatternInfo
      else
        let short_intervals := intervals.filter (fun i => i < 400)
        let long_intervals := intervals.filter (fun i => 400 ≤ i)
        let short_base := mostCommon short_intervals 158
        let long_base := mostCommon long_intervals 761
        some ⟨intervals, some short_base, some long_base,
              get_variants short_intervals short_base,
              get_variants long_intervals long_base⟩

/-- Interval selection inside the generator's walk loops
(mosdac_only.py lines 205-219 forward, 241-255 backward).  The variant
index `iteration % len` is always in range, so the `getD` defaults are
never taken. -/
def pickInterval (pinfo : PatternInfo) (include_variants : Bool)
    (use_short : Bool) (iteration : Nat) : Int :=
  if use_short then
    if include_variants = true ∧ pinfo.short_variants ≠ [] then
      pinfo.short_variants.getD (iteration % pinfo.short_variants.length) 158
    else pinfo.short_base.getD 158
  else
    if include_variants = true ∧ pinfo.long_variants ≠ [] then
      pinfo.long_variants.getD (iteration % pinfo.long_variants.length) 761
    else pinfo.long_base.getD 761

/-- The forward walk of `generate_forward_timestamps_from_latest`
(mosdac_only.py lines 198-232): while
`current_check_sec <= two_hours_ahead and iteration < 50`, add the next
interval, flip `use_short`, increment `iteration`, break (emitting
nothing) once the running count reaches `24 * 3600`, else emit the
formatted timestamp.  `fuel` only bounds the recursion and is called with
51 ≥ the 50 iterations the guard allows. -/
def forwardLoop (pinfo : PatternInfo) (include_variants : Bool)
    (two_hours_ahead : Int) :
    Nat → Int → Bool → Nat → List String
  | 0, _, _, _ => []
  | fuel + 1, current_check_sec, use_short, iteration =>
    if current_check_sec ≤ two_hours_ahead ∧ iteration < 50 then
      let interval := pickInterval pinfo include_variants use_short iteration
      let next_sec := current_check_sec + interval
      if 24 * 3600 ≤ next_sec then []
      else formatTimestamp next_sec ::
        forwardLoop pinfo include_variants two_hours_ahead fuel next_sec
          (!use_short) (iteration + 1)
    else []

/-- The backward walk of `generate_forward_timestamps_from_latest`
(mosdac_only.py lines 234-268): symmetric to the forward walk, subtracting
intervals while `current_check_sec >= two_hours_ago and iteration < 50`,
breaking once the running count goes below 0. -/
def backwardLoop (pinfo : PatternInfo) (include_variants : Bool)
    (two_hours_ago : Int) :
    Nat → Int → Bool → Nat → List String
  | 0, _, _, _ => []
  | fuel + 1, current_check_sec, use_short, iteration =>
    if two_hours_ago ≤ current_check_sec ∧ iteration < 50 then
      let interval := pickInterval pinfo include_variants use_short iteration
      let next_sec := current_check_sec - interval
      if next_sec < 0 then []
      else formatTimestamp next_sec ::
        backwardLoop pinfo include_variants two_hours_ago fuel next_sec
          (!use_short) (iteration + 1)
    else []

/-- The window filter and dedup-sort tail of
`generate_forward_timestamps_from_latest` (mosdac_only.py lines 270-291).
Every string reaching it was either the already-parsed reference or was
produced by `formatTimestamp`, so the re-parse in the filter never fails;
an unparseable string is modelled as failing the filter. -/
def windowFilter (two_hours_ago two_hours_ahead : Int)
    (timestamps : List String) : List String :=
  pySortedStr (timestamps.filter (fun ts =>
    match toSecondsOfString ts with
    | some v => decide (two_hours_ago ≤ v) && decide (v ≤ two_hours_ahead)
    | none => false)).dedup

/-- `generate_forward_timestamps_from_latest` (mosdac_only.py lines
130-291), with the persisted history passed explicitly (the
`load_known_timestamps` branch is out of scope).  The current time enters
only through its hour/minute/second fields.  `none` models a Python
`ValueError` escaping from `int()` on a malformed reference or history
entry. -/
def generate_forward_timestamps_from_latest (hour minute second : Nat)
    (include_variants : Bool) (known_timestamps : List String)
    (reference_timestamp : String) : Option (List String) :=
  match toSecondsOfString reference_timestamp,
        calculate_intervals_from_known known_timestamps with
  | some ref_total_sec, some pattern_info =>
    let current_total_sec : Int :=
      (hour : Int) * 3600 + (minute : Int) * 60 + (second : Int)
    let two_hours_ago := current_total_sec - 7200
    let two_hours_ahead := current_total_sec + 7200
    let directions : Bool × Bool :=
      if ref_total_sec < two_hours_ago then (true, false)
      else if two_hours_ahead < ref_total_sec then (false, true)
      else (true, true)
    let timestamps := [reference_timestamp] ++
      (if directions.1 then
        forwardLoop pattern_info include_variants two_hours_ahead 51
          ref_total_sec true 0
       else []) ++
      (if directions.2 then
        backwardLoop pattern_info include_variants two_hours_ago 51
          ref_total_sec true 0
       else [])
    some (windowFilter two_hours_ago two_hours_ahead timestamps)
  | _, _ => none

/-- An HTTP response as the prober sees it: status code, the
`content-type` header value, and the body (the byte prefixes the code
inspects are ASCII, so the body is modelled as a string). -/
structure Response where
  status_code : Int
  content_type : String
  content : String
deriving DecidableEq

/-- The URL template of the probe
(mosdac_only.py lines 313-316, 329-332). -/
def mkUrl (ts : String) : String :=
  "https://mosdac.gov.in/look/DWR/RCTLS/2025/28JUL/RCTLS_28JUL2025_" ++
    ts ++ "_L2B_STD_MAXZ.gif"

/-- The candidate-offset enumeration of `check_timestamp_with_flexibility`
(mosdac_only.py lines 301-311): offsets `-tolerance .. tolerance` in
ascending order, skipping any that leave `[0, 24*3600)`. -/
def offsetCandidates (base_total_sec : Int) (tolerance_seconds : Nat) :
    List String :=
  ((List.range (2 * tolerance_seconds + 1)).map
      (fun i => (i : Int) - (tolerance_seconds : Int))).filterMap
    (fun offset =>
      let new_total_sec := base_total_sec + offset
      if new_total_sec < 0 ∨ 24 * 3600 ≤ new_total_sec then none
      else some (formatTimestamp new_total_sec))

/-- The nearby-candidate loop of `check_timestamp_with_flexibility`
(mosdac_only.py lines 324-338): skip the base timestamp, fetch each
candidate, return on the first status-200 response; a transport exception
(`fetch _ = none`) or a non-200 status just moves to the next offset. -/
def tryCandidates (fetch : String → Option Response) (base_timestamp : String) :
    List String → Bool × Option String × Option Response
  | [] => (false, none, none)
  | candidate :: rest =>
    if candidate = base_timestamp then tryCandidates fetch base_timestamp rest
    else
      match fetch (mkUrl candidate) with
      | some r =>
        if r.status_code = 200 then (true, some candidate, some r)
        else tryCandidates fetch base_timestamp rest
      | none => tryCandidates fetch base_timestamp rest

/-- `check_timestamp_with_flexibility` (mosdac_only.py lines 294-340) with
the HTTP GET abstracted into the oracle `fetch` (`none` = raised transport
exception).  The exact candidate is tried first (lines 316-322); both an
exception and a non-200 status there fall through to the nearby-candidate
loop.  The outer `none` models a `ValueError` from parsing a malformed
base timestamp. -/
def check_timestamp_with_flexibility (fetch : String → Option Response)
    (base_timestamp : String) (tolerance_seconds : Nat) :
    Option (Bool × Option String × Option Response) :=
  match toSecondsOfString base_timestamp with
  | none => none
  | some base_total_sec =>
    let candidates := offsetCandidates base_total_sec tolerance_seconds
    match fetch (mkUrl base_timestamp) with
    | some r =>
      if r.status_code = 200 then some (true, some base_timestamp, some r)
      else some (tryCandidates fetch base_timestamp candidates)
    | none => some (tryCandidates fetch base_timestamp candidates)

/-- Python `str.lower()`, restricted to per-character lowering (exact for
the ASCII header values compared here). -/
def pyLower (s : String) : String := String.mk (s.data.map Char.toLower)

/-- Substring containment on strings (Python's `in` operator). -/
def strContainsSub (s pat : String) : Bool :=
  (List.range (s.data.length + 1)).any
    (fun i => pat.data.isPrefixOf (s.data.drop i))

/-- The markup detection in `download_mosdac_only`'s download loop
(mosdac_only.py lines 559-564): the lower-cased `content-type` contains
`"text/html"`, or the body starts with `"<!DOCTYPE"`. -/
def isHtmlResponse (r : Response) : Bool :=
  strContainsSub (pyLower r.content_type) "text/html" ||
    "<!DOCTYPE".isPrefixOf r.content

/-- Outcome of one iteration of the download loop. -/
inductive DownloadOutcome
  | saved
  | skippedHtml
  | skippedDuplicate
  | httpError
deriving DecidableEq, Repr

/-- The per-result decision of `download_mosdac_only`'s download loop
(mosdac_only.py lines 556-588), with the duplicate-directory scan
abstracted into the boolean `isDup`: markup payloads and duplicates are
skipped with `continue`, everything else with status 200 is saved. -/
def downloadDecision (r : Response) (isDup : Bool) : DownloadOutcome :=
  if r.status_code = 200 then
    if isHtmlResponse r then .skippedHtml
    else if isDup then .skippedDuplicate
    else .saved
  else .httpError

/-- The candidate scan loop shared by `smart_pattern_scan`
(radar_scraper.py lines 546-589) and `download_mosdac_only`
(mosdac_only.py lines 396-459, 509), with the probe abstracted into its
success bit: returns the successfully probed candidates in order together
with the number of candidates processed.  The accumulator is
`consecutive_not_found`, reset to 0 on every success; once it reaches
`max_consecutive_failures = 5` the loop breaks, leaving the remaining
candidates unprocessed. -/
def scanLoop (probe : String → Bool) (consecutive_not_found : Nat) :
    List String → List String × Nat
  | [] => ([], 0)
  | t :: rest =>
    if probe t then
      (t :: (scanLoop probe 0 rest).1, (scanLoop probe 0 rest).2 + 1)
    else
      if 5 ≤ consecutive_not_found + 1 then ([], 1)
      else
        ((scanLoop probe (consecutive_not_found + 1) rest).1,
          (scanLoop probe (consecutive_not_found + 1) rest).2 + 1)

/-- The best-known-reference fold in `download_mosdac_only`'s zero-success
early-exit branch (mosdac_only.py lines 476-493): scan the known
timestamps, keeping the one whose seconds value is in the past
(`known_sec <= current_total_sec`), strictly closer than the best so far,
and within 7200 s.  `best_distance` starts at `float('inf')`, modelled as
`none`.  The outer `none` models a `ValueError` on a malformed entry. -/
def bestRefLoop (current_total_sec : Int) :
    List String → Option String × Option Int →
    Option (Option String × Option Int)
  | [], acc => some acc
  | known_ts :: rest, (best_reference, best_distance) =>
    match toSecondsOfString known_ts with
    | none => none
    | some known_sec =>
      if decide (known_sec ≤ current_total_sec) &&
         (match best_distance with
          | none => true
          | some b => decide (|current_total_sec - known_sec| < b)) &&
         decide (|current_total_sec - known_sec| ≤ 7200) then
        bestRefLoop current_total_sec rest
          (some known_ts, some (|current_total_sec - known_sec|))
      else
        bestRefLoop current_total_sec rest (best_reference, best_distance)

/-- The net effect of mosdac_only.py lines 466-507 on
`latest_found_timestamp` in the zero-success early-exit branch: the best
reference when the fold found one (the `ref_changed` guard skips the
assignment when it already equals the old reference, leaving the same
value), and the unchanged old reference otherwise. -/
def adjustReferenceOnEarlyExit (current_total_sec : Int)
    (new_valid_timestamps : List String) (reference_timestamp : String) :
    Option String :=
  match bestRefLoop current_total_sec new_valid_timestamps (none, none) with
  | none => none
  | some (best_reference, _) =>
    match best_reference with
    | some b =>
      if b ≠ reference_timestamp then some b else some reference_timestamp
    | none => some reference_timestamp

/-- A canonical markup placeholder response, as MOSDAC serves for missing
archive entries. -/
def htmlResp : Response :=
  ⟨200, "text/html; charset=utf-8", "<!DOCTYPE html><html>placeholder</html>"⟩

/-- A transport oracle that answers every probe with the markup
placeholder page. -/
def constHtmlFetch : String → Option Response := fun _ => some htmlResp

/-! ## General lemmas about digits, parsing and formatting -/

theorem digitChar_isDigit {d : Nat} (hd : d < 10) :
    (Nat.digitChar d).isDigit = true := by
  interval_cases d <;> decide

theorem digitChar_toNat {d : Nat} (hd : d < 10) :
    (Nat.digitChar d).toNat = 48 + d := by
  interval_cases d <;> decide

theorem isDigit_bounds {c : Char} (hc : c.isDigit = true) :
    48 ≤ c.toNat ∧ c.toNat ≤ 57 := by
  simp [Char.isDigit] at hc
  exact ⟨hc.1, hc.2⟩

theorem digitChar_round {c : Char} (hc : c.isDigit = true) :
    Nat.digitChar (c.toNat - 48) = c := by
  obtain ⟨h1, h2⟩ := isDigit_bounds hc
  have hd : c.toNat - 48 < 10 := by omega
  apply Char.ext
  apply UInt32.ext
  show (Nat.digitChar (c.toNat - 48)).toNat = c.toNat
  rw [digitChar_toNat hd]
  omega

theorem pyInt_mk_two {a b : Char} (ha : a.isDigit = true) (hb : b.isDigit = true) :
    pyInt (String.mk [a, b]) =
      some (10 * ((a.toNat : Int) - 48) + ((b.toNat : Int) - 48)) := by
  simp [pyInt, ha, hb]

theorem foldl_digits_nonneg (l : List Char) (acc : Int)
    (hl : ∀ c ∈ l, c.isDigit = true) (hacc : 0 ≤ acc) :
    0 ≤ l.foldl (fun acc c => 10 * acc + ((c.toNat : Int) - 48)) acc := by
  induction l generalizing acc with
  | nil => simpa
  | cons c cs ih =>
    simp only [List.foldl_cons]
    refine ih _ (fun x hx => hl x (List.mem_cons_of_mem _ hx)) ?_
    have := (isDigit_bounds (hl c (List.mem_cons_self _ _))).1
    omega

theorem pyInt_nonneg {s : String} {v : Int} (h : pyInt s = some v) : 0 ≤ v := by
  unfold pyInt at h
  split at h
  · rename_i hcond
    obtain ⟨hne, hall⟩ := hcond
    have h' := Option.some.inj h
    subst h'
    exact foldl_digits_nonneg _ _ (fun c hc => by
      have := List.all_eq_true.mp hall c hc
      simpa using this) le_rfl
  · exact absurd h (by simp)

theorem parseHMS_mk_six {a b c d e f : Char}
    (ha : a.isDigit = true) (hb : b.isDigit = true) (hc : c.isDigit = true)
    (hd : d.isDigit = true) (he : e.isDigit = true) (hf : f.isDigit = true) :
    parseHMS (String.mk [a, b, c, d, e, f]) =
      some (10 * ((a.toNat : Int) - 48) + ((b.toNat : Int) - 48),
            10 * ((c.toNat : Int) - 48) + ((d.toNat : Int) - 48),
            10 * ((e.toNat : Int) - 48) + ((f.toNat : Int) - 48)) := by
  have h1 : pySlice (String.mk [a, b, c, d, e, f]) 0 2 = String.mk [a, b] := rfl
  have h2 : pySlice (String.mk [a, b, c, d, e, f]) 2 4 = String.mk [c, d] := rfl
  have h3 : pySlice (String.mk [a, b, c, d, e, f]) 4 6 = String.mk [e, f] := rfl
  unfold parseHMS
  rw [h1, h2, h3, pyInt_mk_two ha hb, pyInt_mk_two hc hd, pyInt_mk_two he hf]

theorem formatTimestamp_eq {v : Int} (h0 : 0 ≤ v) (h1 : v < 86400) :
    formatTimestamp v = String.mk
      [Nat.digitChar ((v / 3600).toNat / 10), Nat.digitChar ((v / 3600).toNat % 10),
       Nat.digitChar ((v % 3600 / 60).toNat / 10), Nat.digitChar ((v % 3600 / 60).toNat % 10),
       Nat.digitChar ((v % 60).toNat / 10), Nat.digitChar ((v % 60).toNat % 10)] := by
  have hh : 0 ≤ v / 3600 ∧ v / 3600 < 100 := by omega
  have hm : 0 ≤ v % 3600 / 60 ∧ v % 3600 / 60 < 100 := by omega
  have hs : 0 ≤ v % 60 ∧ v % 60 < 100 := by omega
  unfold formatTimestamp pad2
  rw [if_pos hh, if_pos hm, if_pos hs]
  rfl

theorem parseHMS_format {v : Int} (h0 : 0 ≤ v) (h1 : v < 86400) :
    parseHMS (formatTimestamp v) = some (v / 3600, v % 3600 / 60, v % 60) := by
  rw [formatTimestamp_eq h0 h1]
  have bh1 : (v / 3600).toNat / 10 < 10 := by omega
  have bh2 : (v / 3600).toNat % 10 < 10 := by omega
  have bm1 : (v % 3600 / 60).toNat / 10 < 10 := by omega
  have bm2 : (v % 3600 / 60).toNat % 10 < 10 := by omega
  have bs1 : (v % 60).toNat / 10 < 10 := by omega
  have bs2 : (v % 60).toNat % 10 < 10 := by omega
  rw [parseHMS_mk_six (digitChar_isDigit bh1) (digitChar_isDigit bh2)
    (digitChar_isDigit bm1) (digitChar_isDigit bm2)
    (digitChar_isDigit bs1) (digitChar_isDigit bs2)]
  rw [digitChar_toNat bh1, digitChar_toNat bh2, digitChar_toNat bm1,
    digitChar_toNat bm2, digitChar_toNat bs1, digitChar_toNat bs2]
  congr 1
  refine Prod.ext ?_ (Prod.ext ?_ ?_) <;> simp <;> omega

theorem toSeconds_format {v : Int} (h0 : 0 ≤ v) (h1 : v < 86400) :
    toSecondsOfString (formatTimestamp v) = some v := by
  unfold toSecondsOfString
  rw [parseHMS_format h0 h1]
  simp
  omega

theorem isValid_format {v : Int} (h0 : 0 ≤ v) (h1 : v < 86400) :
    isValidTimestamp (formatTimestamp v) = true := by
  unfold isValidTimestamp
  rw [parseHMS_format h0 h1]
  have hlen : (formatTimestamp v).data.length = 6 := by
    rw [formatTimestamp_eq h0 h1]
    rfl
  have hdig : (formatTimestamp v).data.all (·.isDigit) = true := by
    rw [formatTimestamp_eq h0 h1]
    simp only [String.mk]
    refine List.all_eq_true.mpr ?_
    intro c hcmem
    simp only [List.mem_cons, List.not_mem_nil, or_false] at hcmem
    rcases hcmem with h | h | h | h | h | h <;>
      (subst h; exact digitChar_isDigit (by omega))
  rw [hlen, hdig]
  simp
  omega

theorem pyInt_isSome_iff (s : String) :
    (pyInt s).isSome = (!s.data.isEmpty && s.data.all (·.isDigit)) := by
  unfold pyInt
  split <;> rename_i h <;> simp_all

theorem parseHMS_isSome_split (ts : String) :
    (parseHMS ts).isSome =
      ((pyInt (pySlice ts 0 2)).isSome && (pyInt (pySlice ts 2 4)).isSome &&
        (pyInt (pySlice ts 4 6)).isSome) := by
  unfold parseHMS
  rcases pyInt (pySlice ts 0 2) with _ | x <;>
    rcases pyInt (pySlice ts 2 4) with _ | y <;>
    rcases pyInt (pySlice ts 4 6) with _ | z <;> simp

theorem tryCandidates_found (fetch : String → Option Response) (base : String) :
    ∀ (l : List String) (res : Bool × Option String × Option Response),
      tryCandidates fetch base l = res → res.1 = true →
      ∃ ts r, res.2.1 = some ts ∧ res.2.2 = some r ∧
        fetch (mkUrl ts) = some r ∧ r.status_code = 200 := by
  intro l
  induction l with
  | nil =>
    intro res h hf
    rw [← h] at hf
    simp [tryCandidates] at hf
  | cons c rest ih =>
    intro res h hf
    simp only [tryCandidates] at h
    split at h
    · exact ih res h hf
    · split at h
      · rename_i r heq
        split at h
        · rename_i hs
          subst h
          exact ⟨c, r, rfl, rfl, heq, hs⟩
        · exact ih res h hf
      · exact ih res h hf

/-! ## Claim C1: the prober and markup payloads -/

/-- C1 counterexample: `check_timestamp_with_flexibility` DOES report
`found = True` for a markup payload.  With every probe answering HTTP 200
with a `text/html` error page, the check succeeds at the exact candidate
and hands the markup response back. -/
theorem C1_counterexample :
    check_timestamp_with_flexibility constHtmlFetch "132322" 20 =
      some (true, some "132322", some htmlResp) ∧
    isHtmlResponse htmlResp = true := by
  decide

/-- C1 amended: the prober reports success exactly on HTTP status 200,
with no markup inspection — a success always carries a status-200 response
from the fetched URL, markup or not.  The markup check
(content-type containing `text/html`, or a `<!DOCTYPE` body prefix) lives
downstream, in `download_mosdac_only`'s download loop, which skips such a
payload (it is not saved and is not an error). -/
theorem C1_amended_success_and_markup_filter :
    (∀ (fetch : String → Option Response) (base : String) (tol : Nat)
        (res : Bool × Option String × Option Response),
        check_timestamp_with_flexibility fetch base tol = some res →
        res.1 = true →
        ∃ ts r, res.2.1 = some ts ∧ res.2.2 = some r ∧
          fetch (mkUrl ts) = some r ∧ r.status_code = 200) ∧
    (∀ (r : Response) (isDup : Bool), r.status_code = 200 →
        isHtmlResponse r = true →
        downloadDecision r isDup = DownloadOutcome.skippedHtml) := by
  constructor
  · intro fetch base tol res hcheck hfound
    unfold check_timestamp_with_flexibility at hcheck
    split at hcheck
    · exact absurd hcheck (by simp)
    · split at hcheck
      · rename_i baseSec hsec r hr
        split at hcheck
        · rename_i hs
          have := Option.some.inj hcheck
          subst this
          exact ⟨base, r, rfl, rfl, hr, hs⟩
        · exact tryCandidates_found fetch base _ res (Option.some.inj hcheck) hfound
      · exact tryCandidates_found fetch base _ res (Option.some.inj hcheck) hfound
  · intro r isDup h200 hhtml
    unfold downloadDecision
    rw [if_pos h200, if_pos hhtml]

/-- C1 witness: the amended theorem applied at the markup fetch and at the
markup response. -/
theorem C1_witness :
    (∃ ts r, (some "132322" : Option String) = some ts ∧
        (some htmlResp : Option Response) = some r ∧
        constHtmlFetch (mkUrl ts) = some r ∧ r.status_code = 200) ∧
      downloadDecision htmlResp false = DownloadOutcome.skippedHtml :=
  ⟨C1_amended_success_and_markup_filter.1 constHtmlFetch "132322" 20
      (true, some "132322", some htmlResp) (by decide) rfl,
    C1_amended_success_and_markup_filter.2 htmlResp false (by decide) (by decide)⟩

/-! ## Claim C2: the concrete interval derivation -/

/-- C2 counterexample: on the history `["151023","151300","152541"]` the
code computes consecutive deltas 157 and 761 — not 277 and 701 — the
short bucket holds 157 (it is not empty), and the derived short base is
157, not the claimed default 158. -/
theorem C2_counterexample :
    calculate_intervals_from_known ["151023", "151300", "152541"] =
      some ⟨[157, 761], some 157, some 761, [157], [761]⟩ ∧
    (calculate_intervals_from_known ["151023", "151300", "152541"]).map
        PatternInfo.intervals ≠ some [277, 701] ∧
    (calculate_intervals_from_known ["151023", "151300", "152541"]).map
        (fun p => p.short_base.getD 158) ≠ some 158 := by
  decide

/-- C2 amended: for the history `["151023","151300","152541"]` the
consecutive deltas in seconds are `54780 - 54623 = 157` and
`55541 - 54780 = 761`; 157 < 400 falls into the short bucket and
761 ≥ 400 into the long bucket, so the derived profile has
`short_base = 157` (not the default 158) and `long_base = 761`, with
variant sets `[157]` and `[761]`. -/
theorem C2_amended :
    toSecondsOfString "151023" = some 54623 ∧
    toSecondsOfString "151300" = some 54780 ∧
    toSecondsOfString "152541" = some 55541 ∧
    deltas [54623, 54780, 55541] = [157, 761] ∧
    ((157 : Int) < 400 ∧ (400 : Int) ≤ 761) ∧
    calculate_intervals_from_known ["151023", "151300", "152541"] =
      some ⟨[157, 761], some 157, some 761, [157], [761]⟩ := by
  decide

/-! ## Claim C3: parsing and validation -/

/-- C3 counterexample: the code's inline parsing performs no validation.
`"250000"` (hour 25, outside 0-23) parses to 90000 seconds instead of
failing, and the 7-digit `"1234567"` parses (ignoring its seventh digit)
instead of failing; the spec-modelled validating parse rejects both. -/
theorem C3_counterexample :
    toSecondsOfString "250000" = some 90000 ∧
    isValidTimestamp "250000" = false ∧
    parseSpec "250000" = none ∧
    parseHMS "1234567" = some (12, 34, 56) ∧
    parseSpec "1234567" = none := by
  decide

/-- The failure boundary of the inline parse under the digit-string model
of `int()`: it succeeds exactly on texts of length at least 5 whose first
six characters are ASCII digits.  (Real `int()` is more permissive on
non-digit text, so only the success direction of this lemma transfers to
the program; the claims below use it only on that side.) -/
theorem parseHMS_isSome_char (ts : String) :
    (parseHMS ts).isSome =
      (decide (5 ≤ ts.data.length) && (ts.data.take 6).all (·.isDigit)) := by
  rw [parseHMS_isSome_split, pyInt_isSome_iff, pyInt_isSome_iff, pyInt_isSome_iff]
  obtain ⟨l⟩ := ts
  rcases l with _ | ⟨a, _ | ⟨b, _ | ⟨c, _ | ⟨d, _ | ⟨e, _ | ⟨f, rest⟩⟩⟩⟩⟩⟩ <;>
    simp [pySlice, List.all, Bool.and_assoc, Bool.and_comm, Bool.and_left_comm]

/-- C3 amended: the code's inline parsing applies no range validation —
every string of exactly six ASCII digits parses successfully to an
hour/minute/second triple whatever those values decode to — and it reads
only the first six characters of the text, so longer inputs are accepted
with their tail ignored rather than rejected. -/
theorem C3_amended (ts : String) :
    (ts.data.length = 6 → ts.data.all (·.isDigit) = true →
      (parseHMS ts).isSome = true) ∧
    parseHMS ts = parseHMS (pySlice ts 0 6) := by
  constructor
  · intro hlen hdig
    rw [parseHMS_isSome_char, List.take_of_length_le (by omega), hdig]
    simp [hlen]
  · obtain ⟨l⟩ := ts
    rcases l with _ | ⟨a, l⟩
    · rfl
    rcases l with _ | ⟨b, l⟩
    · rfl
    rcases l with _ | ⟨c, l⟩
    · rfl
    rcases l with _ | ⟨d, l⟩
    · rfl
    rcases l with _ | ⟨e, l⟩
    · rfl
    rcases l with _ | ⟨f, l⟩
    · rfl
    rfl

/-- C3 witness: the amended theorem applied at `"250000"` — six digits
with an out-of-range hour field still parse. -/
theorem C3_witness : (parseHMS "250000").isSome = true :=
  (C3_amended "250000").1 (by decide) (by decide)

/-! ## Claim C7: default profile for tiny histories -/

/-- C7: on a history of size 0 or 1, `calculate_intervals_from_known`
returns exactly the static default record; its effective bases (read by
every consumer through `.get('short_base', 158)` / `.get('long_base',
761)`) are 158 and 761, and its variant sets are {157, 158, 159} and
{744, 761, 778}. -/
theorem C7_default_profile (known : List String) (h : known.length ≤ 1) :
    calculate_intervals_from_known known = some defaultPatternInfo ∧
    defaultPatternInfo.short_base.getD 158 = 158 ∧
    defaultPatternInfo.long_base.getD 761 = 761 ∧
    defaultPatternInfo.short_variants.toFinset = {157, 158, 159} ∧
    defaultPatternInfo.long_variants.toFinset = {744, 761, 778} := by
  refine ⟨?_, by decide, by decide, by decide, by decide⟩
  unfold calculate_intervals_from_known
  rw [if_pos (by omega)]

/-- C7 witness: the theorem applied to a one-entry history. -/
theorem C7_witness :
    calculate_intervals_from_known ["151023"] = some defaultPatternInfo :=
  (C7_default_profile ["151023"] (by decide)).1

/-! ## Claim C4: early exit after consecutive failures -/

theorem scanLoop_allfail (probe : String → Bool) :
    ∀ (l : List String) (n : Nat), n < 5 →
      (∀ t ∈ l.take (5 - n), probe t = false) → 5 - n ≤ l.length →
      scanLoop probe n l = ([], 5 - n) := by
  intro l
  induction l with
  | nil =>
    intro n h5 _ hlen
    simp at hlen
    omega
  | cons c rest ih =>
    intro n h5 hfail hlen
    have hk : 5 - n = (4 - n) + 1 := by omega
    rw [hk, List.take_succ_cons] at hfail
    have hc : probe c = false := hfail c (List.mem_cons_self _ _)
    simp only [scanLoop, hc, Bool.false_eq_true, if_false]
    by_cases h4 : n = 4
    · subst h4
      simp
    · have hlt : ¬ (5 ≤ n + 1) := by omega
      rw [if_neg hlt]
      have hsub : 5 - (n + 1) = 4 - n := by omega
      have htail := ih (n + 1) (by omega)
        (fun t ht => hfail t (List.mem_cons_of_mem _ (by rw [hsub] at ht; exact ht)))
        (by simp at hlen ⊢; omega)
      rw [htail]
      simp
      omega

/-- C4: with `max_consecutive_failures = 5`: (i) if the first five
candidates all probe "not found", the scan halts after processing exactly
those five and returns zero successes, leaving every further candidate
unprocessed; (ii) every success resets the consecutive-failure counter to
zero; (iii) every entry of the returned result set is a success. -/
theorem C4_early_exit (probe : String → Bool) (cands : List String)
    (hfail : ∀ t ∈ cands.take 5, probe t = false) (hlen : 5 ≤ cands.length) :
    scanLoop probe 0 cands = ([], 5) ∧
    (∀ (n : Nat) (c : String) (rest : List String), probe c = true →
        scanLoop probe n (c :: rest) =
          (c :: (scanLoop probe 0 rest).1, (scanLoop probe 0 rest).2 + 1)) ∧
    (∀ (n : Nat) (l : List String) (c : String),
        c ∈ (scanLoop probe n l).1 → probe c = true) := by
  refine ⟨?_, ?_, ?_⟩
  · have h := scanLoop_allfail probe cands 0 (by omega) hfail (by simpa using hlen)
    simpa using h
  · intro n c rest hc
    simp [scanLoop, hc]
  · intro n l
    induction l generalizing n with
    | nil =>
      intro c hc
      simp [scanLoop] at hc
    | cons t rest ih =>
      intro c hc
      by_cases ht : probe t = true
      · simp only [scanLoop, ht, if_true] at hc
        rcases List.mem_cons.mp hc with h | h
        · subst h
          exact ht
        · exact ih 0 c h
      · have ht' : probe t = false := by simpa using ht
        simp only [scanLoop, ht', Bool.false_eq_true, if_false] at hc
        split at hc
        · simp at hc
        · exact ih (n + 1) c hc

/-- C4 witness: six always-failing candidates make the scan stop after
exactly five, with no successes. -/
theorem C4_witness :
    scanLoop (fun _ => false) 0
      ["000000", "000001", "000002", "000003", "000004", "000005"] = ([], 5) :=
  (C4_early_exit (fun _ => false)
    ["000000", "000001", "000002", "000003", "000004", "000005"]
    (by decide) (by decide)).1

/-! ## Claim C8: transport failures never abort the offset scan -/

theorem tryCandidates_not_found_iff (fetch : String → Option Response)
    (base : String) :
    ∀ l : List String, (tryCandidates fetch base l).1 = false ↔
      ∀ c ∈ l, c ≠ base → ∀ r, fetch (mkUrl c) = some r →
        r.status_code ≠ 200 := by
  intro l
  induction l with
  | nil => simp [tryCandidates]
  | cons c rest ih =>
    simp only [tryCandidates]
    by_cases hc : c = base
    · rw [if_pos hc, ih]
      constructor
      · intro h x hx hxb r hr
        rcases List.mem_cons.mp hx with h' | h'
        · subst h'
          exact absurd hc hxb
        · exact h x h' hxb r hr
      · intro h x hx hxb r hr
        exact h x (List.mem_cons_of_mem _ hx) hxb r hr
    · rw [if_neg hc]
      cases hr : fetch (mkUrl c) with
      | none =>
        rw [ih]
        constructor
        · intro h x hx hxb r hr'
          rcases List.mem_cons.mp hx with h' | h'
          · subst h'
            rw [hr] at hr'
            exact absurd hr' (by simp)
          · exact h x h' hxb r hr'
        · intro h x hx hxb r hr'
          exact h x (List.mem_cons_of_mem _ hx) hxb r hr'
      | some r =>
        show (if r.status_code = 200 then (true, some c, some r)
          else tryCandidates fetch base rest).1 = false ↔ _
        by_cases hs : r.status_code = 200
        · rw [if_pos hs]
          simp only [show ((true : Bool) = false) = False by simp, false_iff]
          intro h
          exact h c (List.mem_cons_self _ _) hc r hr hs
        · rw [if_neg hs, ih]
          constructor
          · intro h x hx hxb r' hr'
            rcases List.mem_cons.mp hx with h' | h'
            · subst h'
              rw [hr] at hr'
              rw [← Option.some.inj hr']
              exact hs
            · exact h x h' hxb r' hr'
          · intro h x hx hxb r' hr'
            exact h x (List.mem_cons_of_mem _ hx) hxb r' hr'


theorem tryCandidates_false_shape (fetch : String → Option Response)
    (base : String) :
    ∀ l : List String, (tryCandidates fetch base l).1 = false →
      tryCandidates fetch base l = (false, none, none) := by
  intro l
  induction l with
  | nil => intro _; rfl
  | cons c rest ih =>
    intro h
    simp only [tryCandidates] at h ⊢
    by_cases hc : c = base
    · rw [if_pos hc] at h ⊢
      exact ih h
    · rw [if_neg hc] at h ⊢
      cases hr : fetch (mkUrl c) with
      | none =>
        simp only [hr] at h ⊢
        exact ih h
      | some r =>
        simp only [hr] at h ⊢
        by_cases hs : r.status_code = 200
        · rw [if_pos hs] at h
          simp at h
        · rw [if_neg hs] at h ⊢
          exact ih h

/-- C8: a transport failure at an individual offset is merely "not found
at that offset": the overall probe reports not-found exactly when no probe
in the whole range — the exact candidate and every in-range offset —
returned HTTP 200 (so a later success overrides any number of earlier
transport failures), and in that case the returned triple is exactly
`(False, None, None)`. -/
theorem C8_transport_failures (fetch : String → Option Response)
    (base : String) (tol : Nat) (baseSec : Int)
    (res : Bool × Option String × Option Response)
    (hsec : toSecondsOfString base = some baseSec)
    (hres : check_timestamp_with_flexibility fetch base tol = some res) :
    (res.1 = false ↔
      ((∀ r, fetch (mkUrl base) = some r → r.status_code ≠ 200) ∧
        ∀ c ∈ offsetCandidates baseSec tol, c ≠ base →
          ∀ r, fetch (mkUrl c) = some r → r.status_code ≠ 200)) ∧
    (res.1 = false → res = (false, none, none)) := by
  unfold check_timestamp_with_flexibility at hres
  rw [hsec] at hres
  simp only at hres
  cases hr : fetch (mkUrl base) with
  | some r =>
    simp only [hr] at hres
    by_cases hs : r.status_code = 200
    · rw [if_pos hs] at hres
      rw [← Option.some.inj hres]
      refine ⟨?_, by simp⟩
      simp only [show ((true : Bool) = false) = False by simp, false_iff]
      intro hcontra
      exact hcontra.1 r rfl hs
    · rw [if_neg hs] at hres
      rw [← Option.some.inj hres]
      refine ⟨?_, tryCandidates_false_shape fetch base _⟩
      rw [tryCandidates_not_found_iff]
      constructor
      · intro hall
        refine ⟨?_, hall⟩
        intro r' hr'
        rw [← Option.some.inj hr']
        exact hs
      · intro hboth
        exact hboth.2
  | none =>
    simp only [hr] at hres
    rw [← Option.some.inj hres]
    refine ⟨?_, tryCandidates_false_shape fetch base _⟩
    rw [tryCandidates_not_found_iff]
    constructor
    · intro hall
      refine ⟨?_, hall⟩
      intro r' hr'
      exact absurd hr' (by simp)
    · intro hboth
      exact hboth.2

/-- C8 witness: the theorem applied to an oracle whose every probe raises
a transport failure — the probe exhausts the range and reports exactly
`(False, None, None)`. -/
theorem C8_witness :
    ((false, none, none) : Bool × Option String × Option Response).1 = false ↔
      ((∀ r, (fun _ : String => (none : Option Response)) (mkUrl "132322") =
          some r → r.status_code ≠ 200) ∧
        ∀ c ∈ offsetCandidates 48202 20, c ≠ "132322" →
          ∀ r, (fun _ : String => (none : Option Response)) (mkUrl c) =
            some r → r.status_code ≠ 200) :=
  (C8_transport_failures (fun _ => none) "132322" 20 48202 (false, none, none)
    (by decide) (by decide)).1

/-! ## Claim C9: reference adjustment on a failed run -/

/-- Accumulator invariant for `bestRefLoop`: nothing yet, or a candidate
whose parsed seconds value lies in the past at the recorded distance,
within the 7200 s bound. -/
def BestAccOK (cur : Int) : Option String × Option Int → Prop
  | (none, none) => True
  | (some b, some d) => ∃ vb, toSecondsOfString b = some vb ∧ vb ≤ cur ∧
      d = cur - vb ∧ d ≤ 7200
  | _ => False

theorem bestRefLoop_spec (cur : Int) :
    ∀ (l : List String) (acc out : Option String × Option Int),
      bestRefLoop cur l acc = some out → BestAccOK cur acc →
      BestAccOK cur out ∧
      (∀ d0, acc.2 = some d0 → ∃ d, out.2 = some d ∧ d ≤ d0) ∧
      (∀ t ∈ l, ∀ v, toSecondsOfString t = some v → v ≤ cur →
        cur - v ≤ 7200 → ∃ d, out.2 = some d ∧ d ≤ cur - v) ∧
      (∀ b, out.1 = some b → acc.1 = some b ∨ b ∈ l) := by
  intro l
  induction l with
  | nil =>
    intro acc out h hacc
    have hao : acc = out := Option.some.inj h
    subst hao
    exact ⟨hacc, fun d0 hd0 => ⟨d0, hd0, le_rfl⟩, by simp,
      fun b hb => Or.inl hb⟩
  | cons known_ts rest ih =>
    intro acc out h hacc
    obtain ⟨accR, accD⟩ := acc
    simp only [bestRefLoop] at h
    cases hts : toSecondsOfString known_ts with
    | none =>
      rw [hts] at h
      simp at h
    | some known_sec =>
      rw [hts] at h
      simp only at h
      split at h
      · rename_i hcond
        simp only [Bool.and_eq_true, decide_eq_true_eq] at hcond
        obtain ⟨⟨hpast, hmid⟩, hbound⟩ := hcond
        have habs : |cur - known_sec| = cur - known_sec :=
          abs_of_nonneg (by omega)
        have hent : BestAccOK cur (some known_ts, some (|cur - known_sec|)) :=
          ⟨known_sec, hts, hpast, habs, hbound⟩
        obtain ⟨ho, hmono, hmin, hmem⟩ := ih _ _ h hent
        refine ⟨ho, ?_, ?_, ?_⟩
        · intro d0 hd0
          obtain ⟨d, hd, hle⟩ := hmono (|cur - known_sec|) rfl
          refine ⟨d, hd, ?_⟩
          have hd0' : accD = some d0 := hd0
          rw [hd0'] at hmid
          simp only [decide_eq_true_eq] at hmid
          omega
        · intro t htmem v hv h1 h2
          rcases List.mem_cons.mp htmem with rfl | hmem'
          · have hveq : known_sec = v := Option.some.inj (hts.symm.trans hv)
            obtain ⟨d, hd, hle⟩ := hmono (|cur - known_sec|) rfl
            exact ⟨d, hd, by omega⟩
          · exact hmin t hmem' v hv h1 h2
        · intro b hb
          rcases hmem b hb with h' | h'
          · have hbk : b = known_ts := Option.some.inj h'.symm
            exact Or.inr (hbk ▸ List.mem_cons_self _ _)
          · exact Or.inr (List.mem_cons_of_mem _ h')
      · rename_i hcond
        obtain ⟨ho, hmono, hmin, hmem⟩ := ih _ _ h hacc
        refine ⟨ho, hmono, ?_, ?_⟩
        · intro t htmem v hv h1 h2
          rcases List.mem_cons.mp htmem with rfl | hmem'
          · have hveq : known_sec = v := Option.some.inj (hts.symm.trans hv)
            have habs : |cur - known_sec| = cur - known_sec :=
              abs_of_nonneg (by omega)
            cases haccD : accD with
            | none =>
              exfalso
              apply hcond
              subst haccD
              simp only [Bool.and_eq_true, decide_eq_true_eq]
              refine ⟨⟨by omega, ?_⟩, by omega⟩
              trivial
            | some b0 =>
              subst haccD
              have hb0 : b0 ≤ |cur - known_sec| := by
                by_contra hcon
                apply hcond
                simp only [Bool.and_eq_true, decide_eq_true_eq]
                exact ⟨⟨by omega, by simpa using lt_of_not_le hcon⟩, by omega⟩
              obtain ⟨d, hd, hle⟩ := hmono b0 rfl
              exact ⟨d, hd, by omega⟩
          · exact hmin t hmem' v hv h1 h2
        · intro b hb
          rcases hmem b hb with h' | h'
          · exact Or.inl h'
          · exact Or.inr (List.mem_cons_of_mem _ h')

/-- C9: when the zero-success early exit runs the reference adjustment,
(i) if some known timestamp parses to a past value within 7200 s of now,
the final reference is a known timestamp minimising `now - toSeconds(t)`
over all such timestamps; (ii) if no known timestamp qualifies, the fold
selects nothing; and (iii) the final `latest_found_timestamp` is the
selected best reference when one exists and the unchanged old reference
otherwise. -/
theorem C9_reference_adjustment (cur : Int) (known : List String)
    (ref : String) (bestR : Option String) (bestD : Option Int)
    (h : bestRefLoop cur known (none, none) = some (bestR, bestD)) :
    ((∃ t ∈ known, ∃ v, toSecondsOfString t = some v ∧ v ≤ cur ∧
        cur - v ≤ 7200) →
      ∃ b, bestR = some b ∧ b ∈ known ∧
        ∃ vb, toSecondsOfString b = some vb ∧ vb ≤ cur ∧ cur - vb ≤ 7200 ∧
          ∀ t ∈ known, ∀ v, toSecondsOfString t = some v → v ≤ cur →
            cur - v ≤ 7200 → cur - vb ≤ cur - v) ∧
    ((∀ t ∈ known, ∀ v, toSecondsOfString t = some v →
        ¬(v ≤ cur ∧ cur - v ≤ 7200)) → bestR = none) ∧
    adjustReferenceOnEarlyExit cur known ref = some (bestR.getD ref) := by
  obtain ⟨ho, hmono, hmin, hmem⟩ :=
    bestRefLoop_spec cur known (none, none) (bestR, bestD) h trivial
  refine ⟨?_, ?_, ?_⟩
  · rintro ⟨t, htmem, v, hv, h1, h2⟩
    obtain ⟨d, hd, _⟩ := hmin t htmem v hv h1 h2
    cases bestR with
    | none =>
      exfalso
      have hd' : bestD = some d := hd
      rw [hd'] at ho
      exact ho
    | some b =>
      have hd' : bestD = some d := hd
      rw [hd'] at ho
      have ho' : ∃ vb, toSecondsOfString b = some vb ∧ vb ≤ cur ∧
          d = cur - vb ∧ d ≤ 7200 := ho
      obtain ⟨vb, hvb, hvb_le, hdeq, hbound⟩ := ho'
      refine ⟨b, rfl, ?_, vb, hvb, hvb_le, by omega, ?_⟩
      · rcases hmem b rfl with h' | h'
        · exact absurd h' (by simp)
        · exact h'
      · intro t' ht' v' hv' h1' h2'
        obtain ⟨d', hd2, hle'⟩ := hmin t' ht' v' hv' h1' h2'
        have : some d = some d' := hd'.symm.trans hd2
        have hd2' : d = d' := Option.some.inj this
        omega
  · intro hnone
    cases bestR with
    | none => rfl
    | some b =>
      exfalso
      rcases hmem b rfl with h' | h'
      · exact absurd h' (by simp)
      · cases hbd : bestD with
        | none =>
          rw [hbd] at ho
          exact ho
        | some db =>
          rw [hbd] at ho
          have ho' : ∃ vb, toSecondsOfString b = some vb ∧ vb ≤ cur ∧
              db = cur - vb ∧ db ≤ 7200 := ho
          obtain ⟨vb, hvb, hle, hdeq, hbound⟩ := ho'
          exact hnone b h' vb hvb ⟨hle, by omega⟩
  · cases bestR with
    | none =>
      unfold adjustReferenceOnEarlyExit
      rw [h]
      rfl
    | some b =>
      unfold adjustReferenceOnEarlyExit
      rw [h]
      simp only [Option.getD_some]
      by_cases hb : b = ref
      · subst hb
        simp
      · simp [hb]

/-- C9 witness: with zero successes at 15:30:00 and the default history,
the adjustment picks `"152541"`, the closest past known timestamp. -/
theorem C9_witness :
    adjustReferenceOnEarlyExit 55800 ["151023", "151300", "152541"] "000000" =
      some "152541" :=
  (C9_reference_adjustment 55800 ["151023", "151300", "152541"] "000000"
    (some "152541") (some 259) (by decide)).2.2

/-! ## Claim C6: lossless round-trip on valid timestamps -/

theorem format_of_fields {hI mI sI : Int} (hh1 : 0 ≤ hI) (hh2 : hI ≤ 23)
    (hm1 : 0 ≤ mI) (hm2 : mI ≤ 59) (hs1 : 0 ≤ sI) (hs2 : sI ≤ 59) :
    formatTimestamp (hI * 3600 + mI * 60 + sI) =
      String.mk
        [Nat.digitChar (hI.toNat / 10), Nat.digitChar (hI.toNat % 10),
         Nat.digitChar (mI.toNat / 10), Nat.digitChar (mI.toNat % 10),
         Nat.digitChar (sI.toNat / 10), Nat.digitChar (sI.toNat % 10)] := by
  have h0 : 0 ≤ hI * 3600 + mI * 60 + sI := by omega
  have h1 : hI * 3600 + mI * 60 + sI < 86400 := by omega
  rw [formatTimestamp_eq h0 h1]
  have e1 : (hI * 3600 + mI * 60 + sI) / 3600 = hI := by omega
  have e2 : (hI * 3600 + mI * 60 + sI) % 3600 / 60 = mI := by omega
  have e3 : (hI * 3600 + mI * 60 + sI) % 60 = sI := by omega
  rw [e1, e2, e3]

theorem parseHMS_nonneg {ts : String} {h m s : Int}
    (hp : parseHMS ts = some (h, m, s)) : 0 ≤ h ∧ 0 ≤ m ∧ 0 ≤ s := by
  unfold parseHMS at hp
  split at hp
  · rename_i h' m' s' hh hm hs
    have heq := Option.some.inj hp
    obtain ⟨rfl, rfl, rfl⟩ := Prod.mk.injEq .. ▸ heq
    exact ⟨pyInt_nonneg hh, pyInt_nonneg hm, pyInt_nonneg hs⟩
  · exact absurd hp (by simp)

theorem valid_toSeconds_bounds {ts : String} (h : isValidTimestamp ts = true) :
    ∃ v, toSecondsOfString ts = some v ∧ 0 ≤ v ∧ v < 86400 := by
  simp only [isValidTimestamp, Bool.and_eq_true, decide_eq_true_eq] at h
  obtain ⟨⟨hlen, hdig⟩, hparse⟩ := h
  cases hp : parseHMS ts with
  | none =>
    rw [hp] at hparse
    simp at hparse
  | some trip =>
    obtain ⟨hI, mI, sI⟩ := trip
    rw [hp] at hparse
    simp only [Bool.and_eq_true, decide_eq_true_eq] at hparse
    obtain ⟨⟨hh, hm⟩, hs⟩ := hparse
    obtain ⟨hh0, hm0, hs0⟩ := parseHMS_nonneg hp
    refine ⟨hI * 3600 + mI * 60 + sI, ?_, by omega, by omega⟩
    unfold toSecondsOfString
    rw [hp]
    rfl

/-- C6: for every valid 6-digit timestamp string, parsing to seconds and
formatting back with zero-padded 2-digit fields returns the original
string: `format(parse(s)) = s`. -/
theorem C6_roundtrip (s : String) (hvalid : isValidTimestamp s = true) :
    ∃ v, toSecondsOfString s = some v ∧ formatTimestamp v = s := by
  simp only [isValidTimestamp, Bool.and_eq_true, decide_eq_true_eq] at hvalid
  obtain ⟨⟨hlen, hdig⟩, hparse⟩ := hvalid
  obtain ⟨l⟩ := s
  rcases l with _ | ⟨a, l⟩
  · simp only [List.length_nil] at hlen
    omega
  rcases l with _ | ⟨b, l⟩
  · simp only [List.length_cons, List.length_nil] at hlen
    omega
  rcases l with _ | ⟨c, l⟩
  · simp only [List.length_cons, List.length_nil] at hlen
    omega
  rcases l with _ | ⟨d, l⟩
  · simp only [List.length_cons, List.length_nil] at hlen
    omega
  rcases l with _ | ⟨e, l⟩
  · simp only [List.length_cons, List.length_nil] at hlen
    omega
  rcases l with _ | ⟨f, l⟩
  · simp only [List.length_cons, List.length_nil] at hlen
    omega
  rcases l with _ | ⟨g, l⟩
  swap
  · simp only [List.length_cons, List.length_nil] at hlen
    omega
  have hdig' : a.isDigit = true ∧ b.isDigit = true ∧ c.isDigit = true ∧
      d.isDigit = true ∧ e.isDigit = true ∧ f.isDigit = true := by
    simpa using hdig
  obtain ⟨ha, hb, hcc, hdd, hee, hff⟩ := hdig'
  rw [parseHMS_mk_six ha hb hcc hdd hee hff] at hparse
  simp only [Bool.and_eq_true, decide_eq_true_eq] at hparse
  obtain ⟨⟨hh, hm⟩, hs⟩ := hparse
  obtain ⟨Ba1, Ba2⟩ := isDigit_bounds ha
  obtain ⟨Bb1, Bb2⟩ := isDigit_bounds hb
  obtain ⟨Bc1, Bc2⟩ := isDigit_bounds hcc
  obtain ⟨Bd1, Bd2⟩ := isDigit_bounds hdd
  obtain ⟨Be1, Be2⟩ := isDigit_bounds hee
  obtain ⟨Bf1, Bf2⟩ := isDigit_bounds hff
  refine ⟨(10 * ((a.toNat : Int) - 48) + ((b.toNat : Int) - 48)) * 3600 +
      (10 * ((c.toNat : Int) - 48) + ((d.toNat : Int) - 48)) * 60 +
      (10 * ((e.toNat : Int) - 48) + ((f.toNat : Int) - 48)), ?_, ?_⟩
  · unfold toSecondsOfString
    rw [parseHMS_mk_six ha hb hcc hdd hee hff]
    rfl
  · rw [format_of_fields (by omega) hh (by omega) hm (by omega) hs]
    have e1 : (10 * ((a.toNat : Int) - 48) + ((b.toNat : Int) - 48)).toNat / 10 =
        a.toNat - 48 := by omega
    have e2 : (10 * ((a.toNat : Int) - 48) + ((b.toNat : Int) - 48)).toNat % 10 =
        b.toNat - 48 := by omega
    have e3 : (10 * ((c.toNat : Int) - 48) + ((d.toNat : Int) - 48)).toNat / 10 =
        c.toNat - 48 := by omega
    have e4 : (10 * ((c.toNat : Int) - 48) + ((d.toNat : Int) - 48)).toNat % 10 =
        d.toNat - 48 := by omega
    have e5 : (10 * ((e.toNat : Int) - 48) + ((f.toNat : Int) - 48)).toNat / 10 =
        e.toNat - 48 := by omega
    have e6 : (10 * ((e.toNat : Int) - 48) + ((f.toNat : Int) - 48)).toNat % 10 =
        f.toNat - 48 := by omega
    rw [e1, e2, e3, e4, e5, e6, digitChar_round ha, digitChar_round hb,
      digitChar_round hcc, digitChar_round hdd, digitChar_round hee,
      digitChar_round hff]

/-- C6 witness: the round-trip theorem applied to `"151023"`. -/
theorem C6_witness :
    ∃ v, toSecondsOfString "151023" = some v ∧ formatTimestamp v = "151023" :=
  C6_roundtrip "151023" (by decide)

/-! ## Claim C5: the two-hour window invariant -/

theorem mem_windowFilter {ago ahead : Int} {l : List String} {ts : String}
    (h : ts ∈ windowFilter ago ahead l) :
    ts ∈ l ∧ ∃ v, toSecondsOfString ts = some v ∧ ago ≤ v ∧ v ≤ ahead := by
  unfold windowFilter pySortedStr at h
  rw [List.mem_insertionSort, List.mem_dedup, List.mem_filter] at h
  obtain ⟨hmem, hp⟩ := h
  refine ⟨hmem, ?_⟩
  cases hv : toSecondsOfString ts with
  | none =>
    rw [hv] at hp
    simp at hp
  | some v =>
    rw [hv] at hp
    simp only [Bool.and_eq_true, decide_eq_true_eq] at hp
    exact ⟨v, rfl, hp.1, hp.2⟩

/-- C5: every timestamp the candidate generator returns encodes a
seconds-since-midnight value inside the closed two-hour window
`[nowSec - 7200, nowSec + 7200]` around the current time. -/
theorem C5_window_invariant (hour minute second : Nat) (include_variants : Bool)
    (known : List String) (ref : String) (out : List String) (ts : String)
    (hgen : generate_forward_timestamps_from_latest hour minute second
      include_variants known ref = some out)
    (hmem : ts ∈ out) :
    ∃ v, toSecondsOfString ts = some v ∧
      (hour : Int) * 3600 + (minute : Int) * 60 + (second : Int) - 7200 ≤ v ∧
      v ≤ (hour : Int) * 3600 + (minute : Int) * 60 + (second : Int) + 7200 := by
  unfold generate_forward_timestamps_from_latest at hgen
  split at hgen
  · rename_i ref_total_sec pattern_info heq1 heq2
    simp only at hgen
    have hout := Option.some.inj hgen
    subst hout
    exact (mem_windowFilter hmem).2
  · exact absurd hgen (by simp)

/-- C5 witness: the generator run at 15:30:00 with the default history. -/
theorem C5_witness :
    ∃ v, toSecondsOfString "151023" = some v ∧
      (15 : Int) * 3600 + (30 : Int) * 60 + (0 : Int) - 7200 ≤ v ∧
      v ≤ (15 : Int) * 3600 + (30 : Int) * 60 + (0 : Int) + 7200 :=
  C5_window_invariant 15 30 0 true ["151023", "151300", "152541"] "152541"
    ["133558", "133835", "135116", "135353", "140634", "140911", "142152",
     "142429", "143710", "143947", "145228", "145505", "150746", "151023",
     "152304", "152541", "152818", "154059", "154336", "155617", "155854",
     "161135", "161412", "162653", "162930", "164211", "164448", "165729",
     "170006", "171247", "171524", "172805"]
    "151023" (by decide) (by decide)

/-! ## Claim C10: all emitted candidates are valid timestamps -/

theorem argmaxCount_mem (l : List Int) :
    ∀ (ys : List Int) (best : Int), best ∈ l → (∀ y ∈ ys, y ∈ l) →
      argmaxCount l ys best ∈ l := by
  intro ys
  induction ys with
  | nil =>
    intro best hb _
    simpa [argmaxCount] using hb
  | cons y ys ih =>
    intro best hb hys
    simp only [argmaxCount]
    refine ih _ ?_ (fun z hz => hys z (List.mem_cons_of_mem _ hz))
    by_cases hcnt : l.count best < l.count y
    · rw [if_pos hcnt]
      exact hys y (List.mem_cons_self _ _)
    · rw [if_neg hcnt]
      exact hb

theorem mostCommon_mem_or (l : List Int) (dflt : Int) :
    mostCommon l dflt = dflt ∨ mostCommon l dflt ∈ l := by
  cases l with
  | nil => exact Or.inl rfl
  | cons x xs =>
    exact Or.inr (argmaxCount_mem _ xs x (List.mem_cons_self _ _)
      (fun y hy => List.mem_cons_of_mem _ hy))

theorem get_variants_pos {il : List Int} {base : Int}
    (hil : ∀ x ∈ il, 0 < x) (hbase : 0 < base) :
    ∀ x ∈ get_variants il base, 0 < x := by
  intro x hx
  unfold get_variants at hx
  simp only at hx
  split at hx
  · simp only [List.mem_singleton] at hx
    subst hx
    exact hbase
  · unfold pySortedInt at hx
    rw [List.mem_insertionSort, List.mem_dedup, List.mem_filter] at hx
    exact hil x hx.1

theorem calculate_pos {known : List String} {pinfo : PatternInfo}
    (h : calculate_intervals_from_known known = some pinfo) :
    (∀ x ∈ pinfo.short_variants, 0 < x) ∧ (∀ x ∈ pinfo.long_variants, 0 < x) ∧
    0 < pinfo.short_base.getD 158 ∧ 0 < pinfo.long_base.getD 761 := by
  unfold calculate_intervals_from_known at h
  split at h
  · rw [← Option.some.inj h]
    exact ⟨by decide, by decide, by decide, by decide⟩
  · split at h
    · exact absurd h (by simp)
    · rename_i timestamps_sec hm
      simp only at h
      split at h
      · rw [← Option.some.inj h]
        exact ⟨by decide, by decide, by decide, by decide⟩
      · rename_i hne
        have hLpos : ∀ x ∈ (deltas timestamps_sec).filter (fun i => decide (0 < i)),
            0 < x := by
          intro x hx
          simpa using (List.mem_filter.mp hx).2
        have hSpos : ∀ x ∈ ((deltas timestamps_sec).filter
            (fun i => decide (0 < i))).filter (fun i => decide (i < 400)), 0 < x := by
          intro x hx
          exact hLpos x (List.mem_filter.mp hx).1
        have hGpos : ∀ x ∈ ((deltas timestamps_sec).filter
            (fun i => decide (0 < i))).filter (fun i => decide (400 ≤ i)), 0 < x := by
          intro x hx
          exact hLpos x (List.mem_filter.mp hx).1
        have hsb : 0 < mostCommon (((deltas timestamps_sec).filter
            (fun i => decide (0 < i))).filter (fun i => decide (i < 400))) 158 := by
          rcases mostCommon_mem_or (((deltas timestamps_sec).filter
            (fun i => decide (0 < i))).filter (fun i => decide (i < 400))) 158 with
            he | hmm
          · rw [he]
            decide
          · exact hSpos _ hmm
        have hlb : 0 < mostCommon (((deltas timestamps_sec).filter
            (fun i => decide (0 < i))).filter (fun i => decide (400 ≤ i))) 761 := by
          rcases mostCommon_mem_or (((deltas timestamps_sec).filter
            (fun i => decide (0 < i))).filter (fun i => decide (400 ≤ i))) 761 with
            he | hmm
          · rw [he]
            decide
          · exact hGpos _ hmm
        rw [← Option.some.inj h]
        exact ⟨get_variants_pos hSpos hsb, get_variants_pos hGpos hlb, hsb, hlb⟩

theorem pickInterval_pos {pinfo : PatternInfo}
    (hsv : ∀ x ∈ pinfo.short_variants, 0 < x)
    (hlv : ∀ x ∈ pinfo.long_variants, 0 < x)
    (hsb : 0 < pinfo.short_base.getD 158) (hlb : 0 < pinfo.long_base.getD 761)
    (iv us : Bool) (iter : Nat) : 0 < pickInterval pinfo iv us iter := by
  unfold pickInterval
  split
  · split
    · rename_i hcond
      have hne : pinfo.short_variants ≠ [] := hcond.2
      have hlt : iter % pinfo.short_variants.length < pinfo.short_variants.length :=
        Nat.mod_lt _ (List.length_pos.mpr hne)
      rw [List.getD_eq_getElem _ _ hlt]
      exact hsv _ (List.getElem_mem hlt)
    · exact hsb
  · split
    · rename_i hcond
      have hne : pinfo.long_variants ≠ [] := hcond.2
      have hlt : iter % pinfo.long_variants.length < pinfo.long_variants.length :=
        Nat.mod_lt _ (List.length_pos.mpr hne)
      rw [List.getD_eq_getElem _ _ hlt]
      exact hlv _ (List.getElem_mem hlt)
    · exact hlb

theorem forwardLoop_mem {pinfo : PatternInfo} {iv : Bool} {ahead : Int}
    (hpos : ∀ us iter, 0 < pickInterval pinfo iv us iter) :
    ∀ (fuel : Nat) (cur : Int) (us : Bool) (iter : Nat), 0 ≤ cur →
      ∀ ts ∈ forwardLoop pinfo iv ahead fuel cur us iter,
        ∃ v, ts = formatTimestamp v ∧ 0 ≤ v ∧ v < 86400 := by
  intro fuel
  induction fuel with
  | zero =>
    intro cur us iter h0 ts hts
    simp [forwardLoop] at hts
  | succ fuel ih =>
    intro cur us iter h0 ts hts
    simp only [forwardLoop] at hts
    split at hts
    · split at hts
      · simp at hts
      · rename_i hlt
        rcases List.mem_cons.mp hts with rfl | hmem'
        · exact ⟨_, rfl, by have := hpos us iter; omega, by omega⟩
        · exact ih _ _ _ (by have := hpos us iter; omega) ts hmem'
    · simp at hts

theorem backwardLoop_mem {pinfo : PatternInfo} {iv : Bool} {ago : Int}
    (hpos : ∀ us iter, 0 < pickInterval pinfo iv us iter) :
    ∀ (fuel : Nat) (cur : Int) (us : Bool) (iter : Nat), cur < 86400 →
      ∀ ts ∈ backwardLoop pinfo iv ago fuel cur us iter,
        ∃ v, ts = formatTimestamp v ∧ 0 ≤ v ∧ v < 86400 := by
  intro fuel
  induction fuel with
  | zero =>
    intro cur us iter h0 ts hts
    simp [backwardLoop] at hts
  | succ fuel ih =>
    intro cur us iter h0 ts hts
    simp only [backwardLoop] at hts
    split at hts
    · split at hts
      · simp at hts
      · rename_i hlt
        rcases List.mem_cons.mp hts with rfl | hmem'
        · exact ⟨_, rfl, by omega, by have := hpos us iter; omega⟩
        · exact ih _ _ _ (by have := hpos us iter; omega) ts hmem'
    · simp at hts

theorem mem_ite_nil {α : Type} {c : Prop} [Decidable c] {l : List α} {x : α}
    (h : x ∈ if c then l else []) : x ∈ l := by
  split at h
  · exact h
  · simp at h

/-- C10: when the reference is a valid timestamp, every string the
generator outputs is a valid 6-digit timestamp (hour 0-23, minute and
second 0-59, encoding a value in `[0, 86399]`): the forward walk breaks
before formatting once the running count reaches 86400 and the backward
walk breaks once it goes below 0, so no out-of-day value is formatted. -/
theorem C10_output_valid (hour minute second : Nat) (include_variants : Bool)
    (known : List String) (ref : String) (out : List String)
    (href : isValidTimestamp ref = true)
    (hgen : generate_forward_timestamps_from_latest hour minute second
      include_variants known ref = some out) :
    ∀ ts ∈ out, isValidTimestamp ts = true := by
  intro ts hts
  unfold generate_forward_timestamps_from_latest at hgen
  split at hgen
  · rename_i ref_total_sec pattern_info heq1 heq2
    simp only at hgen
    have hout := Option.some.inj hgen
    subst hout
    obtain ⟨hmem, _⟩ := mem_windowFilter hts
    obtain ⟨vr, hvr, hvr0, hvr1⟩ := valid_toSeconds_bounds href
    have hrs : ref_total_sec = vr := Option.some.inj (heq1.symm.trans hvr)
    obtain ⟨hsv, hlv, hsb, hlb⟩ := calculate_pos heq2
    have hpos : ∀ us iter,
        0 < pickInterval pattern_info include_variants us iter :=
      fun us iter => pickInterval_pos hsv hlv hsb hlb include_variants us iter
    rcases List.mem_append.mp hmem with h01 | hb
    · rcases List.mem_append.mp h01 with h0 | hf
      · have hts' : ts = ref := by simpa using h0
        rw [hts']
        exact href
      · obtain ⟨v, rfl, h0', h1'⟩ :=
          forwardLoop_mem hpos 51 ref_total_sec true 0 (by omega) ts
            (mem_ite_nil hf)
        exact isValid_format h0' h1'
    · obtain ⟨v, rfl, h0', h1'⟩ :=
        backwardLoop_mem hpos 51 ref_total_sec true 0 (by omega) ts
          (mem_ite_nil hb)
      exact isValid_format h0' h1'
  · exact absurd hgen (by simp)

/-- C10 witness: the theorem applied to the 15:30:00 run with the default
history; `"151023"` is among the candidates and is a valid timestamp. -/
theorem C10_witness : isValidTimestamp "151023" = true :=
  C10_output_valid 15 30 0 true ["151023", "151300", "152541"] "152541"
    ["133558", "133835", "135116", "135353", "140634", "140911", "142152",
     "142429", "143710", "143947", "145228", "145505", "150746", "151023",
     "152304", "152541", "152818", "154059", "154336", "155617", "155854",
     "161135", "161412", "162653", "162930", "164211", "164448", "165729",
     "170006", "171247", "171524", "172805"]
    (by decide) (by decide) "151023" (by decide)

end RadarScraper
